import Mathlib

/-!
# Verification of the SiteFast edge-optimizer worker

A shallow embedding of `src/worker/src/index.js` (the Cloudflare worker that
proxies a customer origin, extracts page context, asks an external advisor for
optimization hints, and rewrites the HTML head/elements), together with
theorems settling the specification claims about it.

Modelling conventions:
* JavaScript strings are Lean `String`s; JS truthiness of a possibly-absent
  string (`null` / `undefined` / `""` are falsy) is `otruthy`.
* Element attributes (as manipulated through HTMLRewriter's
  `getAttribute` / `setAttribute`) are association lists `Attrs`;
  a value-less HTML attribute surfaces as the empty string, exactly as
  lol-html's `getAttribute` reports it.
* Response headers are an association list observed through `getHeader`;
  `setHeader` models `Headers.set` (replace-or-append).
* The HTML byte stream is modelled structurally: a document is a list of the
  element occurrences the registered HTMLRewriter selectors can fire on,
  in document order, plus opaque `other` chunks the rewriter re-emits
  verbatim.  A `head` element carries its existing children as opaque raw
  chunks; engine insertions are tagged `inj` so injected markup can be
  distinguished from pre-existing markup.
* Network effects (origin fetch, the cloned extraction pass, the advisor
  round-trip, stream transformation) are oracles in a `World` record: each
  stage's outcome is a field, and the handler is a pure function of the
  request, the environment and the world.  The event trace the handler
  returns records which external actions were performed.
-/

set_option autoImplicit false

namespace SiteFast

/-- JS truthiness of a possibly-absent string: `null`/`undefined` and the
empty string are falsy, everything else truthy. -/
def otruthy : Option String → Bool
  | none => false
  | some s => s ≠ ""

/-- Attribute list of one element, in source order. -/
abbrev Attrs := List (String × String)

/-- `el.getAttribute(n)`: value of the first attribute named `n`, if any. -/
def getAttr (a : Attrs) (n : String) : Option String :=
  (a.find? (fun p => p.1 == n)).map (·.2)

/-- `el.setAttribute(n, v)`: overwrite the value of an existing attribute
named `n` in place, else append a fresh attribute. -/
def setAttr (a : Attrs) (n v : String) : Attrs :=
  if (a.find? (fun p => p.1 == n)).isSome then
    a.map (fun p => if p.1 == n then (n, v) else p)
  else
    a ++ [(n, v)]

/-- First-match lookup in a header list (`Headers.get`). -/
def getHeader (hs : List (String × String)) (n : String) : Option String :=
  (hs.find? (fun p => p.1 == n)).map (·.2)

/-- `Headers.set`: drop all entries named `n`, record the new value. -/
def setHeader (hs : List (String × String)) (n v : String) :
    List (String × String) :=
  hs.filter (fun p => p.1 != n) ++ [(n, v)]

/-- Boolean prefix test on character lists. -/
def isPrefixB : List Char → List Char → Bool
  | [], _ => true
  | _ :: _, [] => false
  | a :: as, b :: bs => a == b && isPrefixB as bs

/-- Boolean contiguous-substring test on character lists. -/
def isSubB (n : List Char) : List Char → Bool
  | [] => n.isEmpty
  | b :: bs => isPrefixB n (b :: bs) || isSubB n bs

/-- `hay.includes(needle)` from JS. -/
def substrB (needle hay : String) : Bool :=
  isSubB needle.toList hay.toList

/-- `s.startsWith(pre)` from JS. -/
def jsStartsWith (s pre : String) : Bool :=
  isPrefixB pre.toList s.toList

/-- The page context the extraction pass accumulates
(`pageContext` in the worker); `externalDomains` is the JS `Set` in its
deterministic first-insertion iteration order. -/
structure PageContext where
  title : String
  h1 : String
  description : String
  images : List String
  externalDomains : List String
deriving DecidableEq, Repr

/-- The advisor's parsed reply object.  Each field is `none` when the JSON
field is absent or `null`; `jsonLd` carries the serialized payload of a
present (truthy) `jsonLd` value. -/
structure Suggestion where
  jsonLd : Option String
  metaDescription : Option String
  preconnectDomains : Option (List String)
  criticalResources : Option (List String)
deriving DecidableEq, Repr

/-- `geminiOptimizations?.preconnectDomains` -/
def suggPreconnect (g : Option Suggestion) : Option (List String) :=
  g.bind Suggestion.preconnectDomains

/-- `geminiOptimizations?.metaDescription` -/
def suggMetaDesc (g : Option Suggestion) : Option String :=
  g.bind Suggestion.metaDescription

/-- `geminiOptimizations?.jsonLd` -/
def suggJsonLd (g : Option Suggestion) : Option String :=
  g.bind Suggestion.jsonLd

/-- `geminiOptimizations?.criticalResources` -/
def suggCritical (g : Option Suggestion) : Option (List String) :=
  g.bind Suggestion.criticalResources

/-! ## Rewrite Engine (`applyOptimizations`) -/

/-- One piece of markup the head handler injects. -/
inductive HeadInj where
  /-- `<base href="${originDomain}/">`, prepended. -/
  | base (originDomain : String)
  /-- `<link rel="preconnect" href="${domain}" crossorigin>` -/
  | preconnect (domain : String)
  /-- `<link rel="dns-prefetch" href="${domain}">` -/
  | dnsPrefetch (domain : String)
  /-- `<script type="application/ld+json">…</script>` with the serialized
  schema payload. -/
  | jsonLd (payload : String)
  /-- `<link rel="preload" href="${resource}" as="${asType}">` -/
  | preload (resource : String) (asType : String)
  /-- The appended viewport + X-UA-Compatible meta block. -/
  | viewportCompat
deriving DecidableEq, Repr

/-- A child of a head element: pre-existing markup (opaque) or a chunk the
engine injected. -/
inductive HeadItem where
  | raw (s : String)
  | inj (i : HeadInj)
deriving DecidableEq, Repr

/-- The domains the preconnect loop iterates over:
`geminiOptimizations?.preconnectDomains || Array.from(externalDomains).slice(0, 5)`.
A present list (even empty, a truthy JS array) is used whole; only the
fallback from extraction is capped at 5. -/
def preconnectList (ctx : PageContext) (g : Option Suggestion) : List String :=
  match suggPreconnect g with
  | some l => l
  | none => ctx.externalDomains.take 5

/-- `Array.from(pageContext.externalDomains).slice(5, 10)` -/
def dnsList (ctx : PageContext) : List String :=
  (ctx.externalDomains.drop 5).take 5

/-- `resource.split('.').pop()?.toLowerCase()` mapped to a preload `as`
type: `css` → `style`, `js` → `script`, else `fetch`. -/
def asTypeOf (resource : String) : String :=
  let ext := (((resource.splitOn ".").getLast?).map String.toLower).getD ""
  if ext == "css" then "style" else if ext == "js" then "script" else "fetch"

/-- Everything the head handler appends (before `</head>`), in call order:
preconnect links, dns-prefetch links, the JSON-LD script when the suggestion
carries a schema, one preload link per critical resource when the suggestion
lists them, then the viewport/compatibility meta block. -/
def headInjections (ctx : PageContext) (g : Option Suggestion) : List HeadInj :=
  (preconnectList ctx g).map HeadInj.preconnect
    ++ (dnsList ctx).map HeadInj.dnsPrefetch
    ++ (match suggJsonLd g with
        | some payload => [HeadInj.jsonLd payload]
        | none => [])
    ++ (match suggCritical g with
        | some rs => rs.map (fun r => HeadInj.preload r (asTypeOf r))
        | none => [])
    ++ [HeadInj.viewportCompat]

/-- The head handler: `el.prepend` of the base tag, every other injection via
`el.append`, so the transformed children are
base ++ existing children ++ appended injections. -/
def transformHead (originDomain : String) (ctx : PageContext)
    (g : Option Suggestion) (children : List HeadItem) : List HeadItem :=
  HeadItem.inj (HeadInj.base originDomain) :: children
    ++ (headInjections ctx g).map HeadItem.inj

/-- The `meta[name="description"]` handler.  It is registered only when
`geminiOptimizations?.metaDescription` is truthy (present, non-null and
non-empty); when it fires it overwrites the `content` attribute. -/
def metaDescRule (g : Option Suggestion) (a : Attrs) : Attrs :=
  match suggMetaDesc g with
  | some d => if d = "" then a else setAttr a "content" d
  | none => a

/-- The `img` handler with `imageCount` already incremented for this image.
Beyond the first two images: set `loading="lazy"` then `decoding="async"`,
each only when the attribute's current value is falsy.  For all images with
falsy `width` and `height`, the first two get `fetchpriority="high"`. -/
def imgRule (imageCount : Nat) (a : Attrs) : Attrs :=
  let a1 :=
    if imageCount > 2 then
      let aL := if otruthy (getAttr a "loading") then a
                else setAttr a "loading" "lazy"
      if otruthy (getAttr aL "decoding") then aL
      else setAttr aL "decoding" "async"
    else a
  let _src := (getAttr a1 "src").getD ""
  if !otruthy (getAttr a1 "width") && !otruthy (getAttr a1 "height") then
    if imageCount ≤ 2 then setAttr a1 "fetchpriority" "high" else a1
  else a1

/-- The `iframe` handler: lazy loading unless `loading` is already truthy. -/
def iframeRule (a : Attrs) : Attrs :=
  if otruthy (getAttr a "loading") then a else setAttr a "loading" "lazy"

/-- The `script[src]` handler: add `async` to analytics/gtag/facebook
scripts when neither `async` nor `defer` holds a truthy value. -/
def scriptRule (a : Attrs) : Attrs :=
  let src := (getAttr a "src").getD ""
  if substrB "analytics" src || substrB "gtag" src || substrB "facebook" src then
    if !otruthy (getAttr a "async") && !otruthy (getAttr a "defer") then
      setAttr a "async" ""
    else a
  else a

/-- The `link[rel="stylesheet"]` handler: print-media swap for font/icon
stylesheets. -/
def styleRule (a : Attrs) : Attrs :=
  let href := (getAttr a "href").getD ""
  if substrB "font" href || substrB "icon" href then
    setAttr (setAttr a "media" "print") "onload" "this.media=\x27all\x27"
  else a

/-- An element occurrence one of the registered selectors can fire on, or an
opaque chunk (`other`) the rewriter streams through untouched.  `metaDesc`
stands for an element matching `meta[name="description"]`, `scriptSrc` for
`script[src]`, `styleLink` for `link[rel="stylesheet"]`; `bodyTag` records
whether the attribution comment has been prepended into the body. -/
inductive Elem where
  | head (children : List HeadItem)
  | metaDesc (a : Attrs)
  | img (a : Attrs)
  | iframe (a : Attrs)
  | scriptSrc (a : Attrs)
  | styleLink (a : Attrs)
  | bodyTag (marked : Bool)
  | other (s : String)
deriving DecidableEq, Repr

/-- One step of the rewrite pass: transform one element, threading the
`imageCount` counter. -/
def applyElem (ctx : PageContext) (g : Option Suggestion)
    (originDomain : String) (count : Nat) : Elem → Elem × Nat
  | Elem.head ch => (Elem.head (transformHead originDomain ctx g ch), count)
  | Elem.metaDesc a => (Elem.metaDesc (metaDescRule g a), count)
  | Elem.img a => (Elem.img (imgRule (count + 1) a), count + 1)
  | Elem.iframe a => (Elem.iframe (iframeRule a), count)
  | Elem.scriptSrc a => (Elem.scriptSrc (scriptRule a), count)
  | Elem.styleLink a => (Elem.styleLink (styleRule a), count)
  | Elem.bodyTag _ => (Elem.bodyTag true, count)
  | Elem.other s => (Elem.other s, count)

/-- The full single forward rewrite pass over a document, starting from a
given `imageCount` (the worker starts it at 0). -/
def applyDoc (ctx : PageContext) (g : Option Suggestion)
    (originDomain : String) : Nat → List Elem → List Elem
  | _, [] => []
  | c, e :: t =>
      let p := applyElem ctx g originDomain c e
      p.1 :: applyDoc ctx g originDomain p.2 t

/-- An HTTP response as the worker observes it: status, headers and the
(structurally modelled) HTML body. -/
structure Response where
  status : Nat
  headers : List (String × String)
  body : List Elem
deriving DecidableEq, Repr

/-- `applyOptimizations(response, pageContext, geminiOptimizations,
originDomain)`: `HTMLRewriter.transform` rewrites the body stream and keeps
the status and headers of the response it was given. -/
def applyOptimizations (response : Response) (ctx : PageContext)
    (g : Option Suggestion) (originDomain : String) : Response :=
  { response with body := applyDoc ctx g originDomain 0 response.body }

/-! ## Origin resolution (`fetch` handler, lines 18–35) -/

/-- The inbound request: pathname, parsed query parameters in order, and
the headers the worker reads. -/
structure Request where
  pathname : String
  params : List (String × String)
  xOriginDomain : Option String
  userAgent : Option String
  accept : Option String
deriving DecidableEq, Repr

/-- The worker environment bindings (absent is `undefined`). -/
structure Env where
  ORIGIN_DOMAIN : Option String
  GEMINI_API_KEY : Option String
deriving DecidableEq, Repr

/-- `url.searchParams.get(n)`: first occurrence of the parameter. -/
def getParam (req : Request) (n : String) : Option String :=
  (req.params.find? (fun p => p.1 == n)).map (·.2)

/-- JS `a || b` on a possibly-absent string: `a` when truthy, else `b`. -/
def jsOr (a : Option String) (b : String) : String :=
  match a with
  | some s => if s = "" then b else s
  | none => b

/-- `url.searchParams.get('origin') || request.headers.get('X-Origin-Domain')
|| env.ORIGIN_DOMAIN || 'https://example.com'` -/
def chosenOrigin (req : Request) (env : Env) : String :=
  jsOr (getParam req "origin")
    (jsOr req.xOriginDomain
      (jsOr env.ORIGIN_DOMAIN "https://example.com"))

/-- `if (!originDomain.startsWith('http')) originDomain = 'https://' + originDomain` -/
def normalizeOrigin (s : String) : String :=
  if jsStartsWith s "http" then s else "https://" ++ s

/-- The resolved origin base URL (`originDomain` after clean-up). -/
def resolveBase (req : Request) (env : Env) : String :=
  normalizeOrigin (chosenOrigin req env)

/-- `url.searchParams.delete('origin')`: every `origin` entry is removed. -/
def strippedParams (req : Request) : List (String × String) :=
  req.params.filter (fun p => p.1 != "origin")

/-- `url.search` after the deletion: empty for no parameters, else a `?`
followed by the serialized pairs. -/
def serializeSearch (ps : List (String × String)) : String :=
  match ps with
  | [] => ""
  | _ => "?" ++ String.intercalate "&" (ps.map (fun p => p.1 ++ "=" ++ p.2))

/-- `url.pathname + (url.search || '')` with the `origin` parameter
stripped. -/
def pathAndQuery (req : Request) : String :=
  req.pathname ++ serializeSearch (strippedParams req)

/-- `originUrl = originDomain + pathAndQuery` -/
def originUrl (req : Request) (env : Env) : String :=
  resolveBase req env ++ pathAndQuery req

/-! ## Optimization Advisor (`generateOptimizations`) -/

/-- The observable outcome of the advisor round-trip: either the `fetch` /
`response.json()` threw, or the envelope was decoded and
`data.candidates?.[0]?.content?.parts?.[0]?.text` is the given optional
string (absent for an error envelope with no candidates). -/
inductive AdvisorOutcome where
  | transportError
  | reply (text : Option String)
deriving DecidableEq, Repr

/-- `text.match(/\x7b[\s\S]*\x7d/)`: the span from the first `{` to the last
`}` of the text, when the first `{` precedes some `}`. -/
def extractJsonSpan (s : String) : Option String :=
  let cs := s.toList
  match cs.findIdx? (· == '{') with
  | none => none
  | some i =>
    match cs.reverse.findIdx? (· == '}') with
    | none => none
    | some k =>
      let j := cs.length - 1 - k
      if i < j then some (String.mk ((cs.drop i).take (j - i + 1)))
      else none

/-- `generateOptimizations(apiKey, pageContext, originDomain)`.  The prompt
built from the page context and origin only feeds the external service,
which is abstracted by `outcome`; `parse` abstracts the platform
`JSON.parse` (returning `none` when it throws).  Everything up to and
including the parse sits in a `try` whose `catch` falls through to
`return null`, so the function is total and all-or-nothing: it returns the
fully parsed object or `none`. -/
def generateOptimizations (parse : String → Option Suggestion) :
    AdvisorOutcome → Option Suggestion
  | AdvisorOutcome.transportError => none
  | AdvisorOutcome.reply t =>
    let text := t.getD ""
    match extractJsonSpan text with
    | some s =>
      match parse s with
      | some sug => some sug
      | none => none
    | none => none

/-! ## Pipeline Orchestrator (the exported `fetch` handler) -/

/-- External actions the handler performs, in order. -/
inductive Event where
  | originFetch (url : String)
  | extractPass
  | advisorCall
  | fallbackFetch (url : String)
deriving DecidableEq, Repr

/-- Oracle for everything outside the worker's own code: the outcome of the
primary origin fetch, of the cloned extraction pass, of the advisor
round-trip, whether constructing/streaming the optimized response throws,
the platform JSON parser, and the response a bare fallback
`fetch(originUrl)` would produce. -/
structure World where
  originResult : Except Unit Response
  extractResult : Except Unit PageContext
  advisorOutcome : AdvisorOutcome
  jsonParse : String → Option Suggestion
  transformThrows : Bool
  refetchResult : Response

/-- `contentType.includes('text/html')` on
`originalResponse.headers.get('content-type') || ''`. -/
def contentTypeHtml (res : Response) : Bool :=
  substrB "text/html" ((getHeader res.headers "content-type").getD "")

/-- The suggestion the pipeline passes to the Rewrite Engine: the advisor
runs only behind `if (env.GEMINI_API_KEY)`. -/
def pipelineSuggestion (env : Env) (w : World) : Option Suggestion :=
  if otruthy env.GEMINI_API_KEY then
    generateOptimizations w.jsonParse w.advisorOutcome
  else none

/-- The advisor network attempt happens exactly when a truthy credential is
configured. -/
def advisorEvents (env : Env) : List Event :=
  if otruthy env.GEMINI_API_KEY then [Event.advisorCall] else []

/-- The exported `fetch(request, env, ctx)` handler: resolve the origin,
fetch it, pass non-HTML through, extract context from a clone, consult the
advisor, rewrite, attach the marker and cache headers; any exception inside
the `try` degrades to one bare re-fetch of `originUrl` returned as-is.
Returns the response together with the trace of external actions. -/
def handleFetch (req : Request) (env : Env) (w : World) :
    Response × List Event :=
  let originDomain := resolveBase req env
  let u := originUrl req env
  match w.originResult with
  | Except.error _ =>
      (w.refetchResult, [Event.originFetch u, Event.fallbackFetch u])
  | Except.ok res =>
    if contentTypeHtml res then
      match w.extractResult with
      | Except.error _ =>
          (w.refetchResult,
            [Event.originFetch u, Event.extractPass, Event.fallbackFetch u])
      | Except.ok ctx =>
        if w.transformThrows then
          (w.refetchResult,
            [Event.originFetch u, Event.extractPass] ++ advisorEvents env
              ++ [Event.fallbackFetch u])
        else
          let optimized :=
            applyOptimizations res ctx (pipelineSuggestion env w) originDomain
          let hs :=
            setHeader
              (setHeader optimized.headers "X-SiteFast-Optimized" "true")
              "Cache-Control" "public, max-age=3600, s-maxage=86400"
          ({ status := optimized.status, headers := hs, body := optimized.body },
            [Event.originFetch u, Event.extractPass] ++ advisorEvents env)
    else (res, [Event.originFetch u])

/-! ## Attribute and header lemmas -/

theorem getAttr_map_set (a : Attrs) (n v : String) :
    getAttr (a.map (fun p => if p.1 == n then (n, v) else p)) n
      = (getAttr a n).map (fun _ => v) := by
  induction a with
  | nil => simp [getAttr]
  | cons h t ih =>
    by_cases hh : h.1 = n
    · have h1 : (fun p : String × String => if p.1 == n then (n, v) else p) h
          = (n, v) := by simp [hh]
      simp only [getAttr, List.map_cons, h1]
      rw [List.find?_cons_of_pos _ (by simp),
        List.find?_cons_of_pos _ (by simp [hh])]
      simp
    · have h1 : (fun p : String × String => if p.1 == n then (n, v) else p) h
          = h := by simp [hh]
      simp only [getAttr, List.map_cons, h1]
      rw [List.find?_cons_of_neg _ (by simp [hh]),
        List.find?_cons_of_neg _ (by simp [hh])]
      exact ih

theorem getAttr_append_single_self (a : Attrs) (n v : String)
    (h : getAttr a n = none) :
    getAttr (a ++ [(n, v)]) n = some v := by
  induction a with
  | nil => simp [getAttr]
  | cons p t ih =>
    by_cases hp : p.1 = n
    · rw [getAttr, List.find?_cons_of_pos _ (by simp [hp])] at h
      simp at h
    · rw [getAttr, List.find?_cons_of_neg _ (by simp [hp])] at h
      simp only [List.cons_append, getAttr]
      rw [List.find?_cons_of_neg _ (by simp [hp])]
      exact ih h

theorem getAttr_isSome_iff_find (a : Attrs) (n : String) :
    (a.find? (fun p => p.1 == n)).isSome = (getAttr a n).isSome := by
  simp [getAttr]

/-- `setAttribute` makes the attribute hold the new value. -/
theorem getAttr_setAttr_self (a : Attrs) (n v : String) :
    getAttr (setAttr a n v) n = some v := by
  unfold setAttr
  by_cases h : (a.find? (fun p => p.1 == n)).isSome
  · rw [if_pos h]
    rw [getAttr_map_set]
    rw [getAttr_isSome_iff_find] at h
    cases hx : getAttr a n with
    | none => rw [hx] at h; simp at h
    | some w => simp
  · rw [if_neg h]
    rw [getAttr_isSome_iff_find] at h
    apply getAttr_append_single_self
    cases hx : getAttr a n with
    | none => rfl
    | some w => rw [hx] at h; simp at h

theorem getAttr_map_set_other (a : Attrs) (n v m : String) (hm : m ≠ n) :
    getAttr (a.map (fun p => if p.1 == n then (n, v) else p)) m
      = getAttr a m := by
  induction a with
  | nil => simp [getAttr]
  | cons h t ih =>
    by_cases hh : h.1 = n
    · have hm2 : ¬ (n = m) := fun e => hm e.symm
      have hm3 : ¬ (h.1 = m) := by rw [hh]; exact hm2
      have h1 : (fun p : String × String => if p.1 == n then (n, v) else p) h
          = (n, v) := by simp [hh]
      simp only [getAttr, List.map_cons, h1]
      rw [List.find?_cons_of_neg _ (by simp [hm2]),
        List.find?_cons_of_neg _ (by simp [hm3])]
      exact ih
    · have h1 : (fun p : String × String => if p.1 == n then (n, v) else p) h
          = h := by simp [hh]
      simp only [getAttr, List.map_cons, h1]
      by_cases hq : h.1 = m
      · rw [List.find?_cons_of_pos _ (by simp [hq]),
          List.find?_cons_of_pos _ (by simp [hq])]
      · rw [List.find?_cons_of_neg _ (by simp [hq]),
          List.find?_cons_of_neg _ (by simp [hq])]
        exact ih

theorem getAttr_append_single_other (a : Attrs) (n v m : String)
    (hm : m ≠ n) : getAttr (a ++ [(n, v)]) m = getAttr a m := by
  induction a with
  | nil =>
    have : ¬ (n = m) := fun e => hm e.symm
    simp only [List.nil_append, getAttr]
    rw [List.find?_cons_of_neg _ (by simp [this])]
  | cons p t ih =>
    simp only [List.cons_append, getAttr] at ih ⊢
    by_cases hp : p.1 = m
    · rw [List.find?_cons_of_pos _ (by simp [hp]),
        List.find?_cons_of_pos _ (by simp [hp])]
    · rw [List.find?_cons_of_neg _ (by simp [hp]),
        List.find?_cons_of_neg _ (by simp [hp])]
      exact ih

/-- `setAttribute` leaves every other attribute unchanged. -/
theorem getAttr_setAttr_other (a : Attrs) (n v m : String) (hm : m ≠ n) :
    getAttr (setAttr a n v) m = getAttr a m := by
  unfold setAttr
  by_cases h : (a.find? (fun p => p.1 == n)).isSome
  · rw [if_pos h]; exact getAttr_map_set_other a n v m hm
  · rw [if_neg h]; exact getAttr_append_single_other a n v m hm

theorem getHeader_filter_ne (hs : List (String × String)) (n m : String)
    (hm : m ≠ n) :
    getHeader (hs.filter (fun p => p.1 != n)) m = getHeader hs m := by
  induction hs with
  | nil => rfl
  | cons p t ih =>
    by_cases hp : p.1 = n
    · have hpm : ¬ (p.1 = m) := by rw [hp]; exact fun e => hm e.symm
      rw [List.filter_cons_of_neg (by simp [hp])]
      rw [ih]
      simp only [getHeader]
      rw [List.find?_cons_of_neg _ (by simp [hpm])]
    · rw [List.filter_cons_of_pos (by simp [hp])]
      by_cases hq : p.1 = m
      · simp only [getHeader]
        rw [List.find?_cons_of_pos _ (by simp [hq]),
          List.find?_cons_of_pos _ (by simp [hq])]
      · simp only [getHeader] at ih ⊢
        rw [List.find?_cons_of_neg _ (by simp [hq]),
          List.find?_cons_of_neg _ (by simp [hq])]
        exact ih

theorem getHeader_filter_self (hs : List (String × String)) (n : String) :
    getHeader (hs.filter (fun p => p.1 != n)) n = none := by
  induction hs with
  | nil => rfl
  | cons p t ih =>
    by_cases hp : p.1 = n
    · rw [List.filter_cons_of_neg (by simp [hp])]
      exact ih
    · rw [List.filter_cons_of_pos (by simp [hp])]
      simp only [getHeader] at ih ⊢
      rw [List.find?_cons_of_neg _ (by simp [hp])]
      exact ih

theorem getHeader_append_single_self (hs : List (String × String))
    (n v : String) (h : getHeader hs n = none) :
    getHeader (hs ++ [(n, v)]) n = some v := by
  induction hs with
  | nil => simp [getHeader]
  | cons p t ih =>
    by_cases hp : p.1 = n
    · rw [getHeader, List.find?_cons_of_pos _ (by simp [hp])] at h
      simp at h
    · rw [getHeader, List.find?_cons_of_neg _ (by simp [hp])] at h
      simp only [List.cons_append, getHeader]
      rw [List.find?_cons_of_neg _ (by simp [hp])]
      exact ih h

theorem getHeader_append_single_other (hs : List (String × String))
    (n v m : String) (hm : m ≠ n) :
    getHeader (hs ++ [(n, v)]) m = getHeader hs m := by
  induction hs with
  | nil =>
    have : ¬ (n = m) := fun e => hm e.symm
    simp only [List.nil_append, getHeader]
    rw [List.find?_cons_of_neg _ (by simp [this])]
  | cons p t ih =>
    simp only [List.cons_append, getHeader] at ih ⊢
    by_cases hp : p.1 = m
    · rw [List.find?_cons_of_pos _ (by simp [hp]),
        List.find?_cons_of_pos _ (by simp [hp])]
    · rw [List.find?_cons_of_neg _ (by simp [hp]),
        List.find?_cons_of_neg _ (by simp [hp])]
      exact ih

/-- `Headers.set` makes the header hold the new value. -/
theorem getHeader_setHeader_self (hs : List (String × String)) (n v : String) :
    getHeader (setHeader hs n v) n = some v := by
  unfold setHeader
  exact getHeader_append_single_self _ n v (getHeader_filter_self hs n)

/-- `Headers.set` leaves every other header unchanged. -/
theorem getHeader_setHeader_other (hs : List (String × String))
    (n v m : String) (hm : m ≠ n) :
    getHeader (setHeader hs n v) m = getHeader hs m := by
  unfold setHeader
  rw [getHeader_append_single_other _ n v m hm]
  exact getHeader_filter_ne hs n m hm

/-! ## Projections of the injected head markup -/

/-- The domains of the preconnect links among a list of injections. -/
def preconnectOf (l : List HeadInj) : List String :=
  l.filterMap fun i => match i with
    | HeadInj.preconnect d => some d
    | _ => none

/-- The domains of the dns-prefetch links among a list of injections. -/
def dnsOf (l : List HeadInj) : List String :=
  l.filterMap fun i => match i with
    | HeadInj.dnsPrefetch d => some d
    | _ => none

/-- The hrefs of the injected base tags among a list of injections. -/
def baseOf (l : List HeadInj) : List String :=
  l.filterMap fun i => match i with
    | HeadInj.base h => some h
    | _ => none

theorem filterMap_const_none {α β : Type} (l : List α) :
    l.filterMap (fun _ => (none : Option β)) = [] := by
  induction l <;> simp [List.filterMap_cons, *]

/-- Exactly the preconnect loop's domains appear as preconnect links in the
head injections. -/
theorem preconnectOf_headInjections (ctx : PageContext) (g : Option Suggestion) :
    preconnectOf (headInjections ctx g) = preconnectList ctx g := by
  unfold headInjections
  cases suggJsonLd g <;> cases suggCritical g <;>
    simp [preconnectOf, List.filterMap_append, List.filterMap_map,
      Function.comp_def, List.filterMap_cons, filterMap_const_none]

/-- Exactly the `slice(5, 10)` extraction entries appear as dns-prefetch
links in the head injections, whatever the suggestion holds. -/
theorem dnsOf_headInjections (ctx : PageContext) (g : Option Suggestion) :
    dnsOf (headInjections ctx g) = dnsList ctx := by
  unfold headInjections
  cases suggJsonLd g <;> cases suggCritical g <;>
    simp [dnsOf, List.filterMap_append, List.filterMap_map,
      Function.comp_def, List.filterMap_cons, filterMap_const_none]

/-- The head handler's append loop never emits a base tag. -/
theorem baseOf_headInjections (ctx : PageContext) (g : Option Suggestion) :
    baseOf (headInjections ctx g) = [] := by
  unfold headInjections
  cases suggJsonLd g <;> cases suggCritical g <;>
    simp [baseOf, List.filterMap_append, List.filterMap_map,
      Function.comp_def, List.filterMap_cons, filterMap_const_none]

/-! ## Projections of the document and how the rewrite pass acts on them -/

/-- The hrefs of the base tags the engine injected anywhere in a list of
head children. -/
def injBaseOf (ch : List HeadItem) : List String :=
  ch.filterMap fun it => match it with
    | HeadItem.inj (HeadInj.base h) => some h
    | _ => none

/-- `true` when a list of head children contains no engine-injected item,
as holds for any head of an origin document. -/
def allRaw (ch : List HeadItem) : Bool :=
  ch.all fun it => match it with
    | HeadItem.raw _ => true
    | _ => false

theorem injBaseOf_of_allRaw (ch : List HeadItem) (h : allRaw ch = true) :
    injBaseOf ch = [] := by
  induction ch with
  | nil => rfl
  | cons it t ih =>
    cases it with
    | raw s =>
      simp only [allRaw, List.all_cons, Bool.and_eq_true] at h
      simp only [injBaseOf, List.filterMap_cons]
      exact ih (by simp [allRaw, h.2])
    | inj i => simp [allRaw] at h

theorem injBaseOf_map_inj (l : List HeadInj) :
    injBaseOf (l.map HeadItem.inj) = baseOf l := by
  induction l with
  | nil => rfl
  | cons i t ih =>
    cases i <;>
      simp only [List.map_cons, injBaseOf, baseOf, List.filterMap_cons] at ih ⊢ <;>
      simp [ih]

/-- The head children after the head handler ran: exactly one injected base
tag, at the very front, when the original children were all raw. -/
theorem injBaseOf_transformHead (originDomain : String) (ctx : PageContext)
    (g : Option Suggestion) (ch : List HeadItem) (h : allRaw ch = true) :
    injBaseOf (transformHead originDomain ctx g ch) = [originDomain] := by
  unfold transformHead
  simp only [injBaseOf, List.filterMap_cons, List.filterMap_append]
  have h1 := injBaseOf_of_allRaw ch h
  have h2 := injBaseOf_map_inj (headInjections ctx g)
  simp only [injBaseOf] at h1 h2
  rw [h1, h2, baseOf_headInjections]
  simp

/-- The existing children of each head element, in document order. -/
def headsOf (doc : List Elem) : List (List HeadItem) :=
  doc.filterMap fun e => match e with
    | Elem.head ch => some ch
    | _ => none

/-- The attribute lists of the `meta[name="description"]` elements, in
document order. -/
def metaDescsOf (doc : List Elem) : List Attrs :=
  doc.filterMap fun e => match e with
    | Elem.metaDesc a => some a
    | _ => none

/-- The attribute lists of the `img` elements, in document order. -/
def imgsOf (doc : List Elem) : List Attrs :=
  doc.filterMap fun e => match e with
    | Elem.img a => some a
    | _ => none

/-- The image handler applied along a list of images, continuing from a
given prior `imageCount`. -/
def imgsFrom : Nat → List Attrs → List Attrs
  | _, [] => []
  | c, a :: t => imgRule (c + 1) a :: imgsFrom (c + 1) t

theorem headsOf_applyDoc (ctx : PageContext) (g : Option Suggestion)
    (o : String) (c : Nat) (doc : List Elem) :
    headsOf (applyDoc ctx g o c doc)
      = (headsOf doc).map (transformHead o ctx g) := by
  induction doc generalizing c with
  | nil => rfl
  | cons e t ih =>
    cases e <;>
      simp only [applyDoc, applyElem, headsOf, List.filterMap_cons,
        List.map_cons] at ih ⊢ <;>
      simp [ih]

theorem metaDescsOf_applyDoc (ctx : PageContext) (g : Option Suggestion)
    (o : String) (c : Nat) (doc : List Elem) :
    metaDescsOf (applyDoc ctx g o c doc)
      = (metaDescsOf doc).map (metaDescRule g) := by
  induction doc generalizing c with
  | nil => rfl
  | cons e t ih =>
    cases e <;>
      simp only [applyDoc, applyElem, metaDescsOf, List.filterMap_cons,
        List.map_cons] at ih ⊢ <;>
      simp [ih]

theorem imgsOf_applyDoc (ctx : PageContext) (g : Option Suggestion)
    (o : String) (c : Nat) (doc : List Elem) :
    imgsOf (applyDoc ctx g o c doc) = imgsFrom c (imgsOf doc) := by
  induction doc generalizing c with
  | nil => rfl
  | cons e t ih =>
    cases e <;>
      simp only [applyDoc, applyElem, imgsOf, List.filterMap_cons,
        imgsFrom] at ih ⊢ <;>
      simp [ih, imgsFrom]

theorem imgsFrom_getElem (l : List Attrs) (i c : Nat) (a : Attrs)
    (h : l[i]? = some a) :
    (imgsFrom c l)[i]? = some (imgRule (c + i + 1) a) := by
  induction l generalizing i c with
  | nil => simp at h
  | cons x t ih =>
    cases i with
    | zero =>
      simp at h
      simp [imgsFrom, h]
    | succ j =>
      simp only [List.getElem?_cons_succ] at h
      have := ih j (c + 1) h
      simpa [imgsFrom, Nat.add_assoc, Nat.add_comm, Nat.add_left_comm] using this

/-! ## Claim C1 — preconnect tag count -/

/-- C1 as stated is false: when the suggestion carries a preconnect list the
head handler iterates over the whole list with no cap, so a six-domain
suggestion yields six preconnect link tags, exceeding the claimed bound of
five. -/
theorem C1_counterexample :
    (preconnectOf (headInjections ⟨"", "", "", [], []⟩
        (some ⟨none, none, some ["d1", "d2", "d3", "d4", "d5", "d6"], none⟩))).length = 6
    ∧ ¬ ((preconnectOf (headInjections ⟨"", "", "", [], []⟩
        (some ⟨none, none, some ["d1", "d2", "d3", "d4", "d5", "d6"], none⟩))).length ≤ 5) := by
  constructor
  · rfl
  · decide

/-- C1 (amended): the preconnect link tags are exactly the suggestion's
preconnect list when that list is present — with no cap on their number —
and otherwise exactly the first 5 entries of the extracted external-domain
sequence, in which case at most 5 tags are emitted. -/
theorem C1_preconnect_tags (ctx : PageContext) (g : Option Suggestion) :
    (∀ l, suggPreconnect g = some l →
      preconnectOf (headInjections ctx g) = l) ∧
    (suggPreconnect g = none →
      preconnectOf (headInjections ctx g) = ctx.externalDomains.take 5 ∧
      (preconnectOf (headInjections ctx g)).length ≤ 5) := by
  constructor
  · intro l hl
    rw [preconnectOf_headInjections]
    unfold preconnectList
    rw [hl]
  · intro hn
    rw [preconnectOf_headInjections]
    unfold preconnectList
    rw [hn]
    refine ⟨rfl, ?_⟩
    simp [List.length_take]

/-- Witness for `C1_preconnect_tags` at concrete inputs: a six-domain
suggestion list is emitted whole, and with no suggestion list seven
extracted domains yield the first five. -/
theorem C1_preconnect_tags_witness :
    preconnectOf (headInjections ⟨"", "", "", [], []⟩
        (some ⟨none, none, some ["a", "b", "c", "d", "e", "f"], none⟩))
      = ["a", "b", "c", "d", "e", "f"]
    ∧ preconnectOf (headInjections ⟨"", "", "", [], ["x1", "x2", "x3", "x4", "x5", "x6", "x7"]⟩ none)
        = ["x1", "x2", "x3", "x4", "x5"]
    ∧ (preconnectOf (headInjections ⟨"", "", "", [], ["x1", "x2", "x3", "x4", "x5", "x6", "x7"]⟩ none)).length ≤ 5 := by
  refine ⟨(C1_preconnect_tags ⟨"", "", "", [], []⟩ _).1 _ rfl, ?_, ?_⟩
  · have := ((C1_preconnect_tags ⟨"", "", "", [], ["x1", "x2", "x3", "x4", "x5", "x6", "x7"]⟩ none).2 rfl).1
    simpa using this
  · exact ((C1_preconnect_tags ⟨"", "", "", [], ["x1", "x2", "x3", "x4", "x5", "x6", "x7"]⟩ none).2 rfl).2

/-! ## Claim C5 — hint counts from the extracted domain sequence -/

/-- C5: with no suggestion preconnect list the engine emits exactly
`min(N, 5)` preconnect link tags; in all cases the dns-prefetch link tags
are exactly entries 6 through 10 of the extracted external-domain sequence
(never drawn from the suggestion), hence exactly `min(N, 10) - 5` of them
(truncated subtraction, i.e. `max(0, min(N, 10) - 5)`). -/
theorem C5_hint_counts (ctx : PageContext) (g : Option Suggestion) :
    (suggPreconnect g = none →
      (preconnectOf (headInjections ctx g)).length
        = min ctx.externalDomains.length 5) ∧
    dnsOf (headInjections ctx g) = (ctx.externalDomains.drop 5).take 5 ∧
    (dnsOf (headInjections ctx g)).length
      = min ctx.externalDomains.length 10 - 5 := by
  refine ⟨?_, ?_, ?_⟩
  · intro hn
    rw [preconnectOf_headInjections]
    unfold preconnectList
    rw [hn]
    simp [List.length_take, Nat.min_comm]
  · rw [dnsOf_headInjections]
    rfl
  · rw [dnsOf_headInjections]
    unfold dnsList
    simp only [List.length_take, List.length_drop]
    omega

/-- Witness for `C5_hint_counts`: seven extracted domains and no suggestion
give 5 preconnect tags and exactly the 2 dns-prefetch tags for entries 6
and 7. -/
theorem C5_hint_counts_witness :
    (preconnectOf (headInjections ⟨"", "", "", [], ["x1", "x2", "x3", "x4", "x5", "x6", "x7"]⟩ none)).length
      = min 7 5
    ∧ dnsOf (headInjections ⟨"", "", "", [], ["x1", "x2", "x3", "x4", "x5", "x6", "x7"]⟩ none)
        = ["x6", "x7"]
    ∧ (dnsOf (headInjections ⟨"", "", "", [], ["x1", "x2", "x3", "x4", "x5", "x6", "x7"]⟩ none)).length
        = min 7 10 - 5 := by
  refine ⟨?_, ?_, ?_⟩
  · exact (C5_hint_counts ⟨"", "", "", [], ["x1", "x2", "x3", "x4", "x5", "x6", "x7"]⟩ none).1 rfl
  · have := (C5_hint_counts ⟨"", "", "", [], ["x1", "x2", "x3", "x4", "x5", "x6", "x7"]⟩ none).2.1
    simpa using this
  · exact (C5_hint_counts ⟨"", "", "", [], ["x1", "x2", "x3", "x4", "x5", "x6", "x7"]⟩ none).2.2

/-! ## Claim C4 — exactly one base tag, before every other head injection -/

/-- C4: for a document with one head element (whose children are original,
non-injected markup), the rewritten head contains exactly one
engine-injected base tag, its href is the resolved origin, it is the very
first child, and thus precedes every other element the engine injects into
the head. -/
theorem C4_base_tag_first (ctx : PageContext) (g : Option Suggestion)
    (origin : String) (doc : List Elem) (ch : List HeadItem)
    (hh : headsOf doc = [ch]) (hraw : allRaw ch = true) :
    headsOf (applyDoc ctx g origin 0 doc)
        = [HeadItem.inj (HeadInj.base origin)
            :: (ch ++ (headInjections ctx g).map HeadItem.inj)] ∧
    injBaseOf (HeadItem.inj (HeadInj.base origin)
        :: (ch ++ (headInjections ctx g).map HeadItem.inj)) = [origin] ∧
    (HeadItem.inj (HeadInj.base origin)
        :: (ch ++ (headInjections ctx g).map HeadItem.inj)).head?
      = some (HeadItem.inj (HeadInj.base origin)) := by
  refine ⟨?_, ?_, rfl⟩
  · rw [headsOf_applyDoc, hh]
    rfl
  · have := injBaseOf_transformHead origin ctx g ch hraw
    unfold transformHead at this
    simpa using this

/-- Witness for `C4_base_tag_first` on a one-head document. -/
theorem C4_base_tag_first_witness :
    headsOf (applyDoc ⟨"", "", "", [], []⟩ none "https://site.example"
        0 [Elem.head [HeadItem.raw "<title>t</title>"]])
        = [HeadItem.inj (HeadInj.base "https://site.example")
            :: ([HeadItem.raw "<title>t</title>"]
              ++ (headInjections ⟨"", "", "", [], []⟩ none).map HeadItem.inj)] ∧
    injBaseOf (HeadItem.inj (HeadInj.base "https://site.example")
        :: ([HeadItem.raw "<title>t</title>"]
          ++ (headInjections ⟨"", "", "", [], []⟩ none).map HeadItem.inj))
      = ["https://site.example"] := by
  have := C4_base_tag_first ⟨"", "", "", [], []⟩ none "https://site.example"
    [Elem.head [HeadItem.raw "<title>t</title>"]]
    [HeadItem.raw "<title>t</title>"] rfl rfl
  exact ⟨this.1, this.2.1⟩

/-! ## Claim C9 — description replacement is in-place only -/

/-- C9: the description-replacement rule preserves the number of description
meta tags (it never creates one); when the suggestion is absent or its
`metaDescription` is null every description meta tag passes through with its
attributes unchanged; and whenever the rule runs it can change nothing but
the `content` attribute. -/
theorem C9_meta_description (ctx : PageContext) (g : Option Suggestion)
    (origin : String) (doc : List Elem) :
    (metaDescsOf (applyDoc ctx g origin 0 doc)).length
      = (metaDescsOf doc).length ∧
    (suggMetaDesc g = none →
      metaDescsOf (applyDoc ctx g origin 0 doc) = metaDescsOf doc) ∧
    (∀ a n, n ≠ "content" → getAttr (metaDescRule g a) n = getAttr a n) := by
  refine ⟨?_, ?_, ?_⟩
  · rw [metaDescsOf_applyDoc]
    simp
  · intro h
    rw [metaDescsOf_applyDoc]
    have hid : ∀ a, metaDescRule g a = a := by
      intro a
      unfold metaDescRule
      rw [h]
    calc (metaDescsOf doc).map (metaDescRule g)
        = (metaDescsOf doc).map id := List.map_congr_left (fun a _ => hid a)
      _ = metaDescsOf doc := List.map_id _
  · intro a n hn
    unfold metaDescRule
    cases hd : suggMetaDesc g with
    | none => rfl
    | some d =>
      by_cases hde : d = ""
      · simp [hde]
      · simp only [if_neg hde]
        exact getAttr_setAttr_other a "content" d n hn

/-- Witness for `C9_meta_description`: with no suggestion, a document with
one description meta tag passes it through unchanged, and the rule leaves
the `name` attribute alone. -/
theorem C9_meta_description_witness :
    (metaDescsOf (applyDoc ⟨"", "", "", [], []⟩ none "o" 0
        [Elem.metaDesc [("name", "description"), ("content", "old")]])).length
      = (metaDescsOf [Elem.metaDesc [("name", "description"), ("content", "old")]]).length
    ∧ metaDescsOf (applyDoc ⟨"", "", "", [], []⟩ none "o" 0
        [Elem.metaDesc [("name", "description"), ("content", "old")]])
      = metaDescsOf [Elem.metaDesc [("name", "description"), ("content", "old")]]
    ∧ getAttr (metaDescRule none [("name", "description"), ("content", "old")]) "name"
      = getAttr [("name", "description"), ("content", "old")] "name" := by
  have h := C9_meta_description ⟨"", "", "", [], []⟩ none "o"
    [Elem.metaDesc [("name", "description"), ("content", "old")]]
  exact ⟨h.1, h.2.1 rfl, h.2.2 _ "name" (by decide)⟩

/-! ## Claim C8 — image ordinal rules -/

/-- C8 as stated is false on a present-but-empty attribute: the third image
of this document already specifies `loading` (with the empty value), yet
the engine overrides it to `lazy` because the check is on JS truthiness of
the value, not attribute presence. -/
theorem C8_counterexample :
    (imgsOf (applyDoc ⟨"", "", "", [], []⟩ none "o" 0
        [Elem.img [], Elem.img [], Elem.img [("loading", "")]]))[2]?
      = some [("loading", "lazy"), ("decoding", "async")]
    ∧ getAttr [("loading", "")] "loading" = some ""
    ∧ (some "" : Option String) ≠ some "lazy" := by
  refine ⟨rfl, rfl, by decide⟩

/-- C8 (amended): numbering images by document order across the whole pass,
images 1 and 2 keep their `loading` and `decoding` attributes untouched and
receive `fetchpriority="high"` exactly when neither `width` nor `height`
carries a non-empty value; every image from the third onward receives
`loading="lazy"` and `decoding="async"` unless that attribute already
carries a non-empty value (a present-but-empty attribute is overwritten),
and its `fetchpriority` is untouched. -/
theorem C8_image_rules (ctx : PageContext) (g : Option Suggestion)
    (origin : String) (doc : List Elem) (i : Nat) (a : Attrs)
    (h : (imgsOf doc)[i]? = some a) :
    (imgsOf (applyDoc ctx g origin 0 doc))[i]? = some (imgRule (i + 1) a) ∧
    (i < 2 →
      getAttr (imgRule (i + 1) a) "loading" = getAttr a "loading" ∧
      getAttr (imgRule (i + 1) a) "decoding" = getAttr a "decoding" ∧
      (otruthy (getAttr a "width") = false → otruthy (getAttr a "height") = false →
        getAttr (imgRule (i + 1) a) "fetchpriority" = some "high") ∧
      (otruthy (getAttr a "width") = true ∨ otruthy (getAttr a "height") = true →
        getAttr (imgRule (i + 1) a) "fetchpriority" = getAttr a "fetchpriority")) ∧
    (2 ≤ i →
      (otruthy (getAttr a "loading") = false →
        getAttr (imgRule (i + 1) a) "loading" = some "lazy") ∧
      (otruthy (getAttr a "loading") = true →
        getAttr (imgRule (i + 1) a) "loading" = getAttr a "loading") ∧
      (otruthy (getAttr a "decoding") = false →
        getAttr (imgRule (i + 1) a) "decoding" = some "async") ∧
      (otruthy (getAttr a "decoding") = true →
        getAttr (imgRule (i + 1) a) "decoding" = getAttr a "decoding") ∧
      getAttr (imgRule (i + 1) a) "fetchpriority" = getAttr a "fetchpriority") := by
  refine ⟨?_, ?_, ?_⟩
  · rw [imgsOf_applyDoc]
    simpa using imgsFrom_getElem (imgsOf doc) i 0 a h
  · intro hi
    have hle : i + 1 ≤ 2 := by omega
    have hle2 : i ≤ 1 := by omega
    have hgt : ¬ (i + 1 > 2) := by omega
    have hgt2 : ¬ (1 < i) := by omega
    cases hw : otruthy (getAttr a "width") with
    | true =>
      have hr : imgRule (i + 1) a = a := by
        unfold imgRule
        simp [if_neg hgt, hgt2, hle2, hw]
      rw [hr]
      refine ⟨rfl, rfl, ?_, fun _ => rfl⟩
      intro hw2 _
      simp at hw2
    | false =>
      cases hh2 : otruthy (getAttr a "height") with
      | true =>
        have hr : imgRule (i + 1) a = a := by
          unfold imgRule
          simp [if_neg hgt, hgt2, hle2, hw, hh2]
        rw [hr]
        refine ⟨rfl, rfl, ?_, fun _ => rfl⟩
        intro _ hh3
        simp at hh3
      | false =>
        have hr : imgRule (i + 1) a = setAttr a "fetchpriority" "high" := by
          unfold imgRule
          simp [if_neg hgt, if_pos hle, hgt2, hle2, hw, hh2]
        rw [hr]
        refine ⟨getAttr_setAttr_other a "fetchpriority" "high" "loading" (by decide),
          getAttr_setAttr_other a "fetchpriority" "high" "decoding" (by decide),
          fun _ _ => getAttr_setAttr_self a "fetchpriority" "high", ?_⟩
        intro hc
        rcases hc with hc | hc <;> simp at hc
  · intro hi
    have hgt : i + 1 > 2 := by omega
    have hgt2 : 1 < i := by omega
    have hle : ¬ (i + 1 ≤ 2) := by omega
    have hle2 : ¬ (i ≤ 1) := by omega
    have hload : getAttr (setAttr a "loading" "lazy") "decoding"
        = getAttr a "decoding" :=
      getAttr_setAttr_other a "loading" "lazy" "decoding" (by decide)
    cases hl : otruthy (getAttr a "loading") with
    | true =>
      cases hd : otruthy (getAttr a "decoding") with
      | true =>
        have hr : imgRule (i + 1) a = a := by
          unfold imgRule
          simp [if_pos hgt, if_neg hle, hgt2, hle2, hl, hd, ite_self]
        rw [hr]
        refine ⟨?_, fun _ => rfl, ?_, fun _ => rfl, rfl⟩
        · intro hc; simp at hc
        · intro hc; simp at hc
      | false =>
        have hr : imgRule (i + 1) a = setAttr a "decoding" "async" := by
          unfold imgRule
          simp [if_pos hgt, if_neg hle, hgt2, hle2, hl, hd, ite_self]
        rw [hr]
        refine ⟨?_, ?_, ?_, ?_, ?_⟩
        · intro hc; simp at hc
        · intro _
          exact getAttr_setAttr_other a "decoding" "async" "loading" (by decide)
        · intro _
          exact getAttr_setAttr_self a "decoding" "async"
        · intro hc; simp at hc
        · exact getAttr_setAttr_other a "decoding" "async" "fetchpriority" (by decide)
    | false =>
      cases hd : otruthy (getAttr a "decoding") with
      | true =>
        have hr : imgRule (i + 1) a = setAttr a "loading" "lazy" := by
          unfold imgRule
          simp [if_pos hgt, if_neg hle, hgt2, hle2, hl, hload, hd, ite_self]
        rw [hr]
        refine ⟨?_, ?_, ?_, ?_, ?_⟩
        · intro _
          exact getAttr_setAttr_self a "loading" "lazy"
        · intro hc; simp at hc
        · intro hc; simp at hc
        · intro _
          exact hload
        · exact getAttr_setAttr_other a "loading" "lazy" "fetchpriority" (by decide)
      | false =>
        have hr : imgRule (i + 1) a
            = setAttr (setAttr a "loading" "lazy") "decoding" "async" := by
          unfold imgRule
          simp [if_pos hgt, if_neg hle, hgt2, hle2, hl, hload, hd, ite_self]
        rw [hr]
        refine ⟨?_, ?_, ?_, ?_, ?_⟩
        · intro _
          rw [getAttr_setAttr_other _ "decoding" "async" "loading" (by decide)]
          exact getAttr_setAttr_self a "loading" "lazy"
        · intro hc; simp at hc
        · intro _
          exact getAttr_setAttr_self _ "decoding" "async"
        · intro hc; simp at hc
        · rw [getAttr_setAttr_other _ "decoding" "async" "fetchpriority" (by decide)]
          exact getAttr_setAttr_other a "loading" "lazy" "fetchpriority" (by decide)

/-- Witness for `C8_image_rules` at a concrete five-image document. -/
theorem C8_image_rules_witness :
    (imgsOf (applyDoc ⟨"", "", "", [], []⟩ none "o" 0
        [Elem.img [("width", "10")], Elem.img [], Elem.img [],
         Elem.img [("loading", "eager")], Elem.img []]))[0]?
      = some (imgRule 1 [("width", "10")])
    ∧ getAttr (imgRule 1 [("width", "10")]) "fetchpriority"
        = getAttr [("width", "10")] "fetchpriority"
    ∧ getAttr (imgRule 3 ([] : Attrs)) "loading" = some "lazy"
    ∧ getAttr (imgRule 4 [("loading", "eager")]) "loading" = some "eager" := by
  have h0 := C8_image_rules ⟨"", "", "", [], []⟩ none "o"
    [Elem.img [("width", "10")], Elem.img [], Elem.img [],
     Elem.img [("loading", "eager")], Elem.img []] 0 [("width", "10")] rfl
  have h2 := C8_image_rules ⟨"", "", "", [], []⟩ none "o"
    [Elem.img [("width", "10")], Elem.img [], Elem.img [],
     Elem.img [("loading", "eager")], Elem.img []] 2 ([] : Attrs) rfl
  have h3 := C8_image_rules ⟨"", "", "", [], []⟩ none "o"
    [Elem.img [("width", "10")], Elem.img [], Elem.img [],
     Elem.img [("loading", "eager")], Elem.img []] 3 [("loading", "eager")] rfl
  refine ⟨h0.1, (h0.2.1 (by omega)).2.2.2 (Or.inl (by decide)), ?_, ?_⟩
  · exact (h2.2.2 (by omega)).1 (by decide)
  · have := (h3.2.2 (by omega)).2.1 (by decide)
    rw [this]
    rfl

/-! ## Claim C2 — total fault isolation via one bare re-fetch -/

/-- `true` exactly on fallback-fetch events. -/
def isFallbackEv : Event → Bool
  | Event.fallbackFetch _ => true
  | _ => false

/-- C2: whenever any stage of the pipeline raises — the primary origin
fetch, the extraction pass, or the construction/streaming of the optimized
response — the handler returns the result of the single bare re-fetch of
the resolved origin URL exactly as fetched, the trace shows exactly one
fallback fetch and its URL is the resolved origin URL, and the returned
response carries no optimization marker header unless the origin itself
sent one. -/
theorem C2_fallback_refetch (req : Request) (env : Env) (w : World)
    (hfail : w.originResult = Except.error ()
      ∨ (∃ r, w.originResult = Except.ok r ∧ contentTypeHtml r = true
          ∧ (w.extractResult = Except.error ()
            ∨ (∃ ctx, w.extractResult = Except.ok ctx
                ∧ w.transformThrows = true)))) :
    (handleFetch req env w).1 = w.refetchResult ∧
    (handleFetch req env w).2.filter isFallbackEv
      = [Event.fallbackFetch (originUrl req env)] ∧
    (getHeader w.refetchResult.headers "X-SiteFast-Optimized" = none →
      getHeader (handleFetch req env w).1.headers "X-SiteFast-Optimized"
        = none) := by
  rcases hfail with h1 | ⟨r, hr, hhtml, h2⟩
  · refine ⟨?_, ?_, ?_⟩ <;>
      simp [handleFetch, h1, isFallbackEv, List.filter]
  · rcases h2 with he | ⟨ctx, hctx, ht⟩
    · refine ⟨?_, ?_, ?_⟩ <;>
        simp [handleFetch, hr, hhtml, he, isFallbackEv, List.filter]
    · refine ⟨?_, ?_, ?_⟩ <;>
        cases hk : otruthy env.GEMINI_API_KEY <;>
        simp [handleFetch, hr, hhtml, hctx, ht, advisorEvents, hk,
          isFallbackEv, List.filter]

/-- Witness for `C2_fallback_refetch`: the primary origin fetch throws. -/
theorem C2_fallback_refetch_witness :
    (handleFetch ⟨"/", [], none, none, none⟩ ⟨none, none⟩
        ⟨Except.error (), Except.error (), AdvisorOutcome.transportError,
          fun _ => none, false, ⟨200, [("content-type", "text/html")], []⟩⟩).1
      = ⟨200, [("content-type", "text/html")], []⟩ ∧
    (handleFetch ⟨"/", [], none, none, none⟩ ⟨none, none⟩
        ⟨Except.error (), Except.error (), AdvisorOutcome.transportError,
          fun _ => none, false, ⟨200, [("content-type", "text/html")], []⟩⟩).2.filter isFallbackEv
      = [Event.fallbackFetch (originUrl ⟨"/", [], none, none, none⟩ ⟨none, none⟩)] ∧
    getHeader (handleFetch ⟨"/", [], none, none, none⟩ ⟨none, none⟩
        ⟨Except.error (), Except.error (), AdvisorOutcome.transportError,
          fun _ => none, false, ⟨200, [("content-type", "text/html")], []⟩⟩).1.headers
      "X-SiteFast-Optimized" = none := by
  have h := C2_fallback_refetch ⟨"/", [], none, none, none⟩ ⟨none, none⟩
    ⟨Except.error (), Except.error (), AdvisorOutcome.transportError,
      fun _ => none, false, ⟨200, [("content-type", "text/html")], []⟩⟩
    (Or.inl rfl)
  exact ⟨h.1, h.2.1, h.2.2 rfl⟩

/-! ## Claim C6 — non-HTML responses pass through untouched -/

/-- C6: when the origin response's content type does not indicate HTML, the
handler returns that very response — same status, headers and body, no
marker or cache headers added — and neither the extraction pass nor the
advisor call happens. -/
theorem C6_nonhtml_passthrough (req : Request) (env : Env) (w : World)
    (r : Response) (hok : w.originResult = Except.ok r)
    (hnh : contentTypeHtml r = false) :
    handleFetch req env w = (r, [Event.originFetch (originUrl req env)]) ∧
    Event.extractPass ∉ (handleFetch req env w).2 ∧
    Event.advisorCall ∉ (handleFetch req env w).2 := by
  have h : handleFetch req env w
      = (r, [Event.originFetch (originUrl req env)]) := by
    simp [handleFetch, hok, hnh]
  refine ⟨h, ?_, ?_⟩ <;> rw [h] <;> simp

/-- Witness for `C6_nonhtml_passthrough` on a JSON origin response. -/
theorem C6_nonhtml_passthrough_witness :
    handleFetch ⟨"/api", [], none, none, none⟩ ⟨none, none⟩
        ⟨Except.ok ⟨200, [("content-type", "application/json")], []⟩,
          Except.error (), AdvisorOutcome.transportError, fun _ => none,
          false, ⟨500, [], []⟩⟩
      = (⟨200, [("content-type", "application/json")], []⟩,
          [Event.originFetch (originUrl ⟨"/api", [], none, none, none⟩ ⟨none, none⟩)]) ∧
    Event.advisorCall ∉ (handleFetch ⟨"/api", [], none, none, none⟩ ⟨none, none⟩
        ⟨Except.ok ⟨200, [("content-type", "application/json")], []⟩,
          Except.error (), AdvisorOutcome.transportError, fun _ => none,
          false, ⟨500, [], []⟩⟩).2 := by
  have h := C6_nonhtml_passthrough ⟨"/api", [], none, none, none⟩ ⟨none, none⟩
    ⟨Except.ok ⟨200, [("content-type", "application/json")], []⟩,
      Except.error (), AdvisorOutcome.transportError, fun _ => none,
      false, ⟨500, [], []⟩⟩
    ⟨200, [("content-type", "application/json")], []⟩ rfl (by decide)
  exact ⟨h.1, h.2.2⟩

/-! ## Claim C10 — success-path status and headers -/

/-- C10: on the successful optimized path the response carries the origin
status; `X-SiteFast-Optimized` is set to `true` and `Cache-Control` to
`public, max-age=3600, s-maxage=86400`, overwriting any origin values;
every other header reads exactly as on the (rewritten) origin response,
whose headers `HTMLRewriter.transform` preserves; and the body is the
rewritten origin body. -/
theorem C10_success_headers (req : Request) (env : Env) (w : World)
    (r : Response) (ctx : PageContext)
    (hok : w.originResult = Except.ok r) (hhtml : contentTypeHtml r = true)
    (hex : w.extractResult = Except.ok ctx) (hnt : w.transformThrows = false) :
    (handleFetch req env w).1.status = r.status ∧
    getHeader (handleFetch req env w).1.headers "X-SiteFast-Optimized"
      = some "true" ∧
    getHeader (handleFetch req env w).1.headers "Cache-Control"
      = some "public, max-age=3600, s-maxage=86400" ∧
    (∀ n, n ≠ "X-SiteFast-Optimized" → n ≠ "Cache-Control" →
      getHeader (handleFetch req env w).1.headers n = getHeader r.headers n) ∧
    (handleFetch req env w).1.body
      = applyDoc ctx (pipelineSuggestion env w) (resolveBase req env) 0 r.body := by
  have hres : (handleFetch req env w).1 =
      { status := r.status,
        headers := setHeader
          (setHeader r.headers "X-SiteFast-Optimized" "true")
          "Cache-Control" "public, max-age=3600, s-maxage=86400",
        body := applyDoc ctx (pipelineSuggestion env w) (resolveBase req env)
          0 r.body } := by
    simp [handleFetch, hok, hhtml, hex, hnt, applyOptimizations]
  rw [hres]
  refine ⟨rfl, ?_, ?_, ?_, rfl⟩
  · rw [getHeader_setHeader_other _ _ _ _ (by decide)]
    exact getHeader_setHeader_self _ _ _
  · exact getHeader_setHeader_self _ _ _
  · intro n hn1 hn2
    rw [getHeader_setHeader_other _ _ _ _ hn2,
      getHeader_setHeader_other _ _ _ _ hn1]

/-- Witness for `C10_success_headers` on a concrete HTML origin response
that already carried marker and cache headers. -/
theorem C10_success_headers_witness :
    (handleFetch ⟨"/", [], none, none, none⟩ ⟨none, none⟩
        ⟨Except.ok ⟨201, [("content-type", "text/html"),
            ("Cache-Control", "no-store"), ("X-SiteFast-Optimized", "maybe")],
          [Elem.img []]⟩,
          Except.ok ⟨"", "", "", [], []⟩, AdvisorOutcome.transportError,
          fun _ => none, false, ⟨500, [], []⟩⟩).1.status = 201 ∧
    getHeader (handleFetch ⟨"/", [], none, none, none⟩ ⟨none, none⟩
        ⟨Except.ok ⟨201, [("content-type", "text/html"),
            ("Cache-Control", "no-store"), ("X-SiteFast-Optimized", "maybe")],
          [Elem.img []]⟩,
          Except.ok ⟨"", "", "", [], []⟩, AdvisorOutcome.transportError,
          fun _ => none, false, ⟨500, [], []⟩⟩).1.headers "X-SiteFast-Optimized"
      = some "true" ∧
    getHeader (handleFetch ⟨"/", [], none, none, none⟩ ⟨none, none⟩
        ⟨Except.ok ⟨201, [("content-type", "text/html"),
            ("Cache-Control", "no-store"), ("X-SiteFast-Optimized", "maybe")],
          [Elem.img []]⟩,
          Except.ok ⟨"", "", "", [], []⟩, AdvisorOutcome.transportError,
          fun _ => none, false, ⟨500, [], []⟩⟩).1.headers "Cache-Control"
      = some "public, max-age=3600, s-maxage=86400" ∧
    getHeader (handleFetch ⟨"/", [], none, none, none⟩ ⟨none, none⟩
        ⟨Except.ok ⟨201, [("content-type", "text/html"),
            ("Cache-Control", "no-store"), ("X-SiteFast-Optimized", "maybe")],
          [Elem.img []]⟩,
          Except.ok ⟨"", "", "", [], []⟩, AdvisorOutcome.transportError,
          fun _ => none, false, ⟨500, [], []⟩⟩).1.headers "content-type"
      = some "text/html" := by
  have h := C10_success_headers ⟨"/", [], none, none, none⟩ ⟨none, none⟩
    ⟨Except.ok ⟨201, [("content-type", "text/html"),
        ("Cache-Control", "no-store"), ("X-SiteFast-Optimized", "maybe")],
      [Elem.img []]⟩,
      Except.ok ⟨"", "", "", [], []⟩, AdvisorOutcome.transportError,
      fun _ => none, false, ⟨500, [], []⟩⟩
    ⟨201, [("content-type", "text/html"),
      ("Cache-Control", "no-store"), ("X-SiteFast-Optimized", "maybe")],
      [Elem.img []]⟩
    ⟨"", "", "", [], []⟩ rfl (by decide) rfl rfl
  refine ⟨h.1, h.2.1, h.2.2.1, ?_⟩
  rw [h.2.2.2.1 "content-type" (by decide) (by decide)]
  rfl

/-! ## Claim C3 — advisor is all-or-nothing and never throws -/

/-- C3: `generateOptimizations` is a total function (it cannot propagate an
error), returns no suggestion on a transport failure, on any reply whose
text contains no brace-delimited JSON span (as happens for an error
envelope, whose missing candidates yield the empty text), and on any span
the JSON parser rejects; whenever it does return a suggestion, that
suggestion is exactly the fully parsed object of the extracted span — never
a partially populated record.  At the pipeline level, a non-truthy
credential means the suggestion is absent and no advisor call is ever
traced. -/
theorem C3_advisor_all_or_nothing (parse : String → Option Suggestion)
    (req : Request) (env : Env) (w : World) :
    generateOptimizations parse AdvisorOutcome.transportError = none ∧
    (∀ t, extractJsonSpan (t.getD "") = none →
      generateOptimizations parse (AdvisorOutcome.reply t) = none) ∧
    (∀ t s, extractJsonSpan (t.getD "") = some s → parse s = none →
      generateOptimizations parse (AdvisorOutcome.reply t) = none) ∧
    (∀ o res, generateOptimizations parse o = some res →
      ∃ t s, o = AdvisorOutcome.reply t
        ∧ extractJsonSpan (t.getD "") = some s ∧ parse s = some res) ∧
    (otruthy env.GEMINI_API_KEY = false →
      pipelineSuggestion env w = none ∧
      Event.advisorCall ∉ (handleFetch req env w).2) := by
  refine ⟨rfl, ?_, ?_, ?_, ?_⟩
  · intro t ht
    simp [generateOptimizations, ht]
  · intro t s ht hp
    simp [generateOptimizations, ht, hp]
  · intro o res hres
    cases o with
    | transportError => exact absurd hres (by simp [generateOptimizations])
    | reply t =>
      cases ht : extractJsonSpan (t.getD "") with
      | none =>
        rw [show generateOptimizations parse (AdvisorOutcome.reply t) = none by
          simp [generateOptimizations, ht]] at hres
        exact absurd hres (by simp)
      | some s =>
        cases hp : parse s with
        | none =>
          rw [show generateOptimizations parse (AdvisorOutcome.reply t) = none by
            simp [generateOptimizations, ht, hp]] at hres
          exact absurd hres (by simp)
        | some sug =>
          rw [show generateOptimizations parse (AdvisorOutcome.reply t) = some sug by
            simp [generateOptimizations, ht, hp]] at hres
          exact ⟨t, s, rfl, ht, by rw [hp, hres]⟩
  · intro hk
    refine ⟨by simp [pipelineSuggestion, hk], ?_⟩
    cases ho : w.originResult with
    | error e => simp [handleFetch, ho]
    | ok r =>
      cases hh : contentTypeHtml r
      · simp [handleFetch, ho, hh]
      · cases hx : w.extractResult with
        | error e => simp [handleFetch, ho, hh, hx]
        | ok ctx =>
          cases ht : w.transformThrows <;>
            simp [handleFetch, ho, hh, hx, ht, advisorEvents, hk]

/-- Witness for `C3_advisor_all_or_nothing`: a transport error, a reply
with no JSON object, a brace span the parser rejects, and a worker with no
credential all yield no suggestion and no advisor call. -/
theorem C3_advisor_all_or_nothing_witness :
    generateOptimizations (fun _ => none) AdvisorOutcome.transportError = none ∧
    generateOptimizations (fun _ => none)
        (AdvisorOutcome.reply (some "sorry, here is prose only")) = none ∧
    generateOptimizations (fun _ => none)
        (AdvisorOutcome.reply (some "fence \x7b\"jsonLd\": oops\x7d fence")) = none ∧
    (pipelineSuggestion ⟨none, none⟩
        ⟨Except.error (), Except.error (), AdvisorOutcome.transportError,
          fun _ => none, false, ⟨200, [], []⟩⟩ = none ∧
      Event.advisorCall ∉ (handleFetch ⟨"/", [], none, none, none⟩ ⟨none, none⟩
        ⟨Except.error (), Except.error (), AdvisorOutcome.transportError,
          fun _ => none, false, ⟨200, [], []⟩⟩).2) := by
  have h := C3_advisor_all_or_nothing (fun _ => none)
    ⟨"/", [], none, none, none⟩ ⟨none, none⟩
    ⟨Except.error (), Except.error (), AdvisorOutcome.transportError,
      fun _ => none, false, ⟨200, [], []⟩⟩
  refine ⟨h.1, h.2.1 _ (by decide), ?_, h.2.2.2.2 rfl⟩
  exact h.2.2.1 (some "fence \x7b\"jsonLd\": oops\x7d fence")
    "\x7b\"jsonLd\": oops\x7d" (by decide) rfl

/-! ## Claim C7 — origin selection and normalization -/

/-- C7 as stated is false: `origin=httpd.apache.org` is a bare hostname
carrying no scheme, yet because it starts with the four characters `http`
the clean-up step leaves it untouched, so the resolved base URL is not
https-prefixed. -/
theorem C7_counterexample :
    resolveBase ⟨"/", [("origin", "httpd.apache.org")], none, none, none⟩
        ⟨none, none⟩
      = "httpd.apache.org"
    ∧ substrB "://" "httpd.apache.org" = false
    ∧ jsStartsWith "httpd.apache.org" "https://" = false := by
  refine ⟨rfl, by decide, by decide⟩

/-- C7 (amended): the origin base is the first JS-truthy (present and
non-empty) value among the `origin` query parameter, the `X-Origin-Domain`
header, the `ORIGIN_DOMAIN` configuration and the fallback
`https://example.com`; the chosen value is prefixed with `https://` exactly
when it does not already start with the four characters `http` (so a bare
hostname that happens to start with `http` is left unprefixed); and the
upstream URL is the resolved base plus the original path and query with
every `origin` parameter stripped. -/
theorem C7_origin_resolution (req : Request) (env : Env) :
    (∀ s, getParam req "origin" = some s → s ≠ "" →
      resolveBase req env = normalizeOrigin s) ∧
    ((getParam req "origin" = none ∨ getParam req "origin" = some "") →
      ∀ s, req.xOriginDomain = some s → s ≠ "" →
        resolveBase req env = normalizeOrigin s) ∧
    ((getParam req "origin" = none ∨ getParam req "origin" = some "") →
      (req.xOriginDomain = none ∨ req.xOriginDomain = some "") →
      ∀ s, env.ORIGIN_DOMAIN = some s → s ≠ "" →
        resolveBase req env = normalizeOrigin s) ∧
    ((getParam req "origin" = none ∨ getParam req "origin" = some "") →
      (req.xOriginDomain = none ∨ req.xOriginDomain = some "") →
      (env.ORIGIN_DOMAIN = none ∨ env.ORIGIN_DOMAIN = some "") →
      resolveBase req env = "https://example.com") ∧
    (jsStartsWith (chosenOrigin req env) "http" = false →
      resolveBase req env = "https://" ++ chosenOrigin req env) ∧
    (jsStartsWith (chosenOrigin req env) "http" = true →
      resolveBase req env = chosenOrigin req env) ∧
    originUrl req env = resolveBase req env
      ++ (req.pathname ++ serializeSearch (strippedParams req)) ∧
    (∀ p, p ∈ strippedParams req → p.1 ≠ "origin" ∧ p ∈ req.params) := by
  refine ⟨?_, ?_, ?_, ?_, ?_, ?_, rfl, ?_⟩
  · intro s hs hne
    unfold resolveBase chosenOrigin
    rw [hs]
    simp [jsOr, hne]
  · intro hq s hs hne
    unfold resolveBase chosenOrigin
    rcases hq with hq | hq <;> rw [hq, hs] <;> simp [jsOr, hne]
  · intro hq hx s hs hne
    unfold resolveBase chosenOrigin
    rcases hq with hq | hq <;> rcases hx with hx | hx <;>
      rw [hq, hx, hs] <;> simp [jsOr, hne]
  · intro hq hx he
    unfold resolveBase chosenOrigin
    rcases hq with hq | hq <;> rcases hx with hx | hx <;>
      rcases he with he | he <;> rw [hq, hx, he] <;> rfl
  · intro hns
    unfold resolveBase normalizeOrigin
    rw [if_neg (by simp [hns])]
  · intro hys
    unfold resolveBase normalizeOrigin
    rw [if_pos (by simp [hys])]
  · intro p hp
    unfold strippedParams at hp
    rw [List.mem_filter] at hp
    exact ⟨by simpa using hp.2, hp.1⟩

/-- Witness for `C7_origin_resolution` at concrete inputs exercising every
priority level and both normalization branches. -/
theorem C7_origin_resolution_witness :
    resolveBase ⟨"/", [("origin", "a.example")], some "b.example", none, none⟩
        ⟨some "c.example", none⟩ = normalizeOrigin "a.example" ∧
    resolveBase ⟨"/", [("origin", "")], some "b.example", none, none⟩
        ⟨some "c.example", none⟩ = normalizeOrigin "b.example" ∧
    resolveBase ⟨"/", [], none, none, none⟩ ⟨some "c.example", none⟩
      = normalizeOrigin "c.example" ∧
    resolveBase ⟨"/", [], some "", none, none⟩ ⟨none, none⟩
      = "https://example.com" ∧
    resolveBase ⟨"/", [("origin", "d.example")], none, none, none⟩ ⟨none, none⟩
      = "https://" ++ chosenOrigin ⟨"/", [("origin", "d.example")], none, none, none⟩ ⟨none, none⟩ ∧
    originUrl ⟨"/p", [("origin", "x.com"), ("a", "1")], none, none, none⟩ ⟨none, none⟩
      = resolveBase ⟨"/p", [("origin", "x.com"), ("a", "1")], none, none, none⟩ ⟨none, none⟩
        ++ ("/p" ++ serializeSearch (strippedParams ⟨"/p", [("origin", "x.com"), ("a", "1")], none, none, none⟩)) ∧
    (∀ p, p ∈ strippedParams ⟨"/p", [("origin", "x.com"), ("a", "1")], none, none, none⟩ →
      p.1 ≠ "origin" ∧ p ∈ [(("origin" : String), ("x.com" : String)), ("a", "1")]) := by
  refine ⟨?_, ?_, ?_, ?_, ?_, ?_, ?_⟩
  · exact (C7_origin_resolution ⟨"/", [("origin", "a.example")], some "b.example", none, none⟩
      ⟨some "c.example", none⟩).1 "a.example" rfl (by decide)
  · exact (C7_origin_resolution ⟨"/", [("origin", "")], some "b.example", none, none⟩
      ⟨some "c.example", none⟩).2.1 (Or.inr rfl) "b.example" rfl (by decide)
  · exact (C7_origin_resolution ⟨"/", [], none, none, none⟩
      ⟨some "c.example", none⟩).2.2.1 (Or.inl rfl) (Or.inl rfl) "c.example" rfl (by decide)
  · exact (C7_origin_resolution ⟨"/", [], some "", none, none⟩
      ⟨none, none⟩).2.2.2.1 (Or.inl rfl) (Or.inr rfl) (Or.inl rfl)
  · exact (C7_origin_resolution ⟨"/", [("origin", "d.example")], none, none, none⟩
      ⟨none, none⟩).2.2.2.2.1 (by decide)
  · exact (C7_origin_resolution ⟨"/p", [("origin", "x.com"), ("a", "1")], none, none, none⟩
      ⟨none, none⟩).2.2.2.2.2.2.1
  · exact (C7_origin_resolution ⟨"/p", [("origin", "x.com"), ("a", "1")], none, none, none⟩
      ⟨none, none⟩).2.2.2.2.2.2.2

end SiteFast
